import Mathlib

/-!
Verification of the natural-language specification of the `websockets`
library core against a shallow embedding of its source code.

The embedding covers:
* the incremental UTF-8 codec used by the message assembler (the Python
  `codecs.getincrementaldecoder("utf-8")` with strict error handling,
  modelled byte by byte);
* the frame codec (`websockets/legacy/framing.py`: `Frame.read`,
  `parse_close`, `serialize_close`);
* the message assembler (`websockets/sync/messages.py`: `Assembler.put`,
  `Assembler.get`), modelled as an explicit state machine whose
  producer/consumer rendezvous is collapsed to its sequential
  interleaving;
* subprotocol selection (`websockets/legacy/server.py`:
  `WebSocketServerProtocol.select_subprotocol`);
* the opening-handshake failure dispatch of the server handler
  (`websockets/legacy/server.py`: `WebSocketServerProtocol.handler`);
* the opening handshake of the sync client (`websockets/sync/client.py`:
  `ClientProtocol.handshake`), modelled as the trace of its effects.

Bytes and code points are modelled as `Nat`; byte strings as `List Nat`.
-/

namespace WS

/-! ## Incremental UTF-8 codec

the Python `UTF8Decoder(errors="strict")` decodes each chunk as it
arrives, keeping the trailing incomplete multi-byte sequence as
internal state and raising `UnicodeDecodeError` at the first byte that
cannot begin or continue a valid sequence.  The model below feeds the
decoder one byte at a time. -/

/-- Result of attempting to take one UTF-8 code point off the front of
a byte buffer. -/
inductive Utf8Step where
  | done
  | cp (c : Nat) (rest : List Nat)
  | incomplete
  | invalid
  deriving DecidableEq, Repr

/-- A UTF-8 continuation byte (`0x80..0xBF`). -/
def utf8Cont (b : Nat) : Bool := 128 ≤ b && b ≤ 191

/-- Lower bound for the first continuation byte, per RFC 3629 (excludes
overlong forms and surrogates, matching Cthe Python strict decoder). -/
def utf8Lo (b0 : Nat) : Nat := if b0 = 224 then 160 else if b0 = 240 then 144 else 128

/-- Upper bound for the first continuation byte, per RFC 3629. -/
def utf8Hi (b0 : Nat) : Nat := if b0 = 237 then 159 else if b0 = 244 then 143 else 191

/-- Take one code point off the front of a byte buffer, or report that
the buffer is empty (`done`), a strict prefix of a valid sequence
(`incomplete`), or not a prefix of any valid sequence (`invalid`). -/
def parse1 : List Nat → Utf8Step
  | [] => .done
  | b0 :: rest =>
    if b0 < 128 then .cp b0 rest
    else if b0 < 194 then .invalid
    else if b0 < 224 then
      match rest with
      | [] => .incomplete
      | b1 :: r1 =>
        if utf8Cont b1 then .cp ((b0 - 192) * 64 + (b1 - 128)) r1 else .invalid
    else if b0 < 240 then
      match rest with
      | [] => .incomplete
      | b1 :: r1 =>
        if utf8Lo b0 ≤ b1 && b1 ≤ utf8Hi b0 then
          match r1 with
          | [] => .incomplete
          | b2 :: r2 =>
            if utf8Cont b2 then
              .cp ((b0 - 224) * 4096 + (b1 - 128) * 64 + (b2 - 128)) r2
            else .invalid
        else .invalid
    else if b0 < 245 then
      match rest with
      | [] => .incomplete
      | b1 :: r1 =>
        if utf8Lo b0 ≤ b1 && b1 ≤ utf8Hi b0 then
          match r1 with
          | [] => .incomplete
          | b2 :: r2 =>
            if utf8Cont b2 then
              match r2 with
              | [] => .incomplete
              | b3 :: r3 =>
                if utf8Cont b3 then
                  .cp ((b0 - 240) * 262144 + (b1 - 128) * 4096 + (b2 - 128) * 64 + (b3 - 128)) r3
                else .invalid
            else .invalid
        else .invalid
    else .invalid

/-- Feed one byte to the incremental decoder: emit a code point,
buffer the byte, or fail on malformed input. -/
def feed1 (pending : List Nat) (b : Nat) : Except Unit (Option Nat × List Nat) :=
  match parse1 (pending ++ [b]) with
  | .cp c rest => .ok (some c, rest)
  | .incomplete => .ok (none, pending ++ [b])
  | .invalid => .error ()
  | .done => .ok (none, [])

/-- Decode one chunk of bytes, starting from the buffered incomplete
sequence `pending`; return the decoded code points and the new buffered
state. -/
def decodeChunk (pending : List Nat) : List Nat → Except Unit (List Nat × List Nat)
  | [] => .ok ([], pending)
  | b :: bs =>
    match feed1 pending b with
    | .error _ => .error ()
    | .ok (emit, p2) =>
      match decodeChunk p2 bs with
      | .error _ => .error ()
      | .ok (out, pf) => .ok (emit.toList ++ out, pf)

/-- Model of `decoder.decode(data, final)`: decode a chunk; when `final` is set a
leftover incomplete sequence is an error. -/
def decoderDecode (pending data : List Nat) (final : Bool) :
    Except Unit (List Nat × List Nat) :=
  match decodeChunk pending data with
  | .error _ => .error ()
  | .ok (out, p) => if final && !p.isEmpty then .error () else .ok (out, p)

/-- Whole-buffer strict UTF-8 decoding (`bytes.decode("utf-8")`). -/
def utf8Decode (bs : List Nat) : Option (List Nat) :=
  match decoderDecode [] bs true with
  | .ok (out, _) => some out
  | .error _ => none

/-- A Unicode scalar value: encodable code point (below `0x110000` and
not a surrogate). -/
def scalar (c : Nat) : Bool := c < 1114112 && !(55296 ≤ c && c ≤ 57343)

/-- UTF-8 encoding of a single scalar value. -/
def utf8EncodeChar (c : Nat) : List Nat :=
  if c < 128 then [c]
  else if c < 2048 then [192 + c / 64, 128 + c % 64]
  else if c < 65536 then [224 + c / 4096, 128 + c / 64 % 64, 128 + c % 64]
  else [240 + c / 262144, 128 + c / 4096 % 64, 128 + c / 64 % 64, 128 + c % 64]

/-- UTF-8 encoding of a sequence of scalar values. -/
def utf8EncodeAll (cs : List Nat) : List Nat := (cs.map utf8EncodeChar).flatten

/-- Model of `str.encode("utf-8")`: fails (like CPython) when the string holds a
lone surrogate or out-of-range code point. -/
def utf8Encode (cs : List Nat) : Option (List Nat) :=
  if cs.all scalar then some (utf8EncodeAll cs) else none

/-- Prepend a code point to the output of a decoding step. -/
def cpCons (c : Nat) : Except Unit (List Nat × List Nat) → Except Unit (List Nat × List Nat)
  | .error e => .error e
  | .ok (o, p) => .ok (c :: o, p)

/-! ## Frame codec (`websockets/legacy/framing.py`)

`Frame.read` consumes bytes from a blocking reader; the model threads
an explicit byte stream (`List Nat`) and fails with `eof` where the
reader would hit end of file. -/

/-- Modelled from the spec: `websockets.frames.Opcode` (not under
`src/`), the six defined opcodes CONT=0x0, TEXT=0x1, BINARY=0x2,
CLOSE=0x8, PING=0x9, PONG=0xA. -/
inductive Opcode where
  | cont | text | binary | close | ping | pong
  deriving DecidableEq, Repr

/-- Model of the enum constructor `Opcode(value)`, `none` for an undefined
4-bit value (where the Python constructor raises `ValueError`). -/
def Opcode.fromWire (n : Nat) : Option Opcode :=
  if n = 0 then some .cont
  else if n = 1 then some .text
  else if n = 2 then some .binary
  else if n = 8 then some .close
  else if n = 9 then some .ping
  else if n = 10 then some .pong
  else none

/-- A control opcode (CLOSE, PING or PONG). -/
def Opcode.isControl : Opcode → Bool
  | .close | .ping | .pong => true
  | _ => false

/-- A parsed WebSocket frame (`legacy.framing.Frame`). -/
structure Frame where
  fin : Bool
  opcode : Opcode
  data : List Nat
  rsv1 : Bool := false
  rsv2 : Bool := false
  rsv3 : Bool := false
  deriving DecidableEq, Repr

/-- The error kinds `Frame.read` and the close codec can raise. -/
inductive FrameError where
  | eof
  | protocolError (msg : String)
  | payloadTooBig
  | invalidUtf8
  deriving DecidableEq, Repr

/-- Model of `reader(n)`: yield exactly `n` bytes off the stream or fail at end
of file. -/
def readExact (n : Nat) (s : List Nat) : Except FrameError (List Nat × List Nat) :=
  if n ≤ s.length then .ok (s.take n, s.drop n) else .error .eof

/-- Big-endian interpretation of a byte string (`struct.unpack("!H")` /
`struct.unpack("!Q")`). -/
def beNat (bs : List Nat) : Nat := bs.foldl (fun acc b => acc * 256 + b) 0

/-- The extended-length decoding step of `Frame.read`: a 7-bit length
of 126 reads a 2-byte big-endian length, 127 reads an 8-byte big-endian
length, anything smaller is the length itself. -/
def parseLength (len7 : Nat) (s : List Nat) : Except FrameError (Nat × List Nat) :=
  if len7 = 126 then
    match readExact 2 s with
    | .error e => .error e
    | .ok (bs, s1) => .ok (beNat bs, s1)
  else if len7 = 127 then
    match readExact 8 s with
    | .error e => .error e
    | .ok (bs, s1) => .ok (beNat bs, s1)
  else .ok (len7, s)

/-- Model of `apply_mask`: XOR each payload byte against the 4-byte key. -/
def applyMask (data key : List Nat) : List Nat :=
  data.enum.map (fun p => p.2 ^^^ key.getD (p.1 % 4) 0)

/-- Model of `max_size is not None and length > max_size`. -/
def overSizeLimit (maxSize : Option Nat) (length : Nat) : Bool :=
  match maxSize with
  | some m => decide (m < length)
  | none => false

/-- The wire-parsing part of `Frame.read` (header, length, masking,
payload), before extensions are applied: returns the raw frame and the
unread remainder of the stream. -/
def readRaw (mask : Bool) (maxSize : Option Nat) (s : List Nat) :
    Except FrameError (Frame × List Nat) :=
  match readExact 2 s with
  | .error e => .error e
  | .ok (hd, s1) =>
    let head1 := hd.getD 0 0
    let head2 := hd.getD 1 0
    let fin := (head1 &&& 128) != 0
    let rsv1 := (head1 &&& 64) != 0
    let rsv2 := (head1 &&& 32) != 0
    let rsv3 := (head1 &&& 16) != 0
    match Opcode.fromWire (head1 &&& 15) with
    | none => .error (.protocolError ("invalid opcode"))
    | some opcode =>
      if (((head2 &&& 128) != 0) != mask) = true then
        .error (.protocolError ("incorrect masking"))
      else
        match parseLength (head2 &&& 127) s1 with
        | .error e => .error e
        | .ok (length, s2) =>
          if overSizeLimit maxSize length then .error .payloadTooBig
          else
            match (if mask then readExact 4 s2 else .ok ([], s2)) with
            | .error e => .error e
            | .ok (maskBits, s3) =>
              match readExact length s3 with
              | .error e => .error e
              | .ok (payload, s4) =>
                let data := if mask then applyMask payload maskBits else payload
                .ok ({ fin := fin, opcode := opcode, data := data,
                       rsv1 := rsv1, rsv2 := rsv2, rsv3 := rsv3 }, s4)

/-- Modelled from the spec: `frames.Frame.check` (not under `src/`) —
the structural invariants of §3: reserved bits must be zero (after
extension decoding), control frames must be final and carry at most
125 bytes. -/
def checkFrame (f : Frame) : Except FrameError Unit :=
  if f.rsv1 || f.rsv2 || f.rsv3 then .error (.protocolError ("reserved bits must be 0"))
  else if f.opcode.isControl then
    if 125 < f.data.length then .error (.protocolError ("control frame too long"))
    else if !f.fin then .error (.protocolError ("fragmented control frame"))
    else .ok ()
  else .ok ()

/-- The `decode` hook of an extension: it may rewrite the frame, and sees
the `max_size` of the connection. -/
def Extension : Type := Frame → Option Nat → Frame

/-- Model of `Frame.read`: parse the wire format, apply each negotiated
`decode` hook of each extension, walking the extension list in reversed order, then
validate the frame invariants. -/
def frameRead (mask : Bool) (maxSize : Option Nat) (exts : List Extension)
    (s : List Nat) : Except FrameError (Frame × List Nat) :=
  match readRaw mask maxSize s with
  | .error e => .error e
  | .ok (raw, rest) =>
    let newFrame := exts.reverse.foldl (fun fr ext => ext fr maxSize) raw
    match checkFrame newFrame with
    | .error e => .error e
    | .ok _ => .ok (newFrame, rest)

/-- Modelled from the spec: "apply the decode hook of each extension in reverse
of negotiation order" — the last-negotiated extension decodes first and
the first-negotiated extension decodes last. -/
def specApply (exts : List Extension) (maxSize : Option Nat) (f : Frame) : Frame :=
  match exts with
  | [] => f
  | e :: rest => e (specApply rest maxSize f) maxSize

/-! ## Close payload codec

`parse_close` and `serialize_close` in `legacy/framing.py` delegate to
`frames.Close`, which is not under `src/`; `Close` is therefore
modelled from the spec. -/

/-- Modelled from the spec: the close codes acceptable on the wire —
`1000..=4999` excluding the reserved set {1005, 1006, 1015}. -/
def closeCodeOk (code : Nat) : Bool :=
  1000 ≤ code && code ≤ 4999 && code != 1005 && code != 1006 && code != 1015

/-- Modelled from the spec: `frames.Close.parse` — an empty payload is
the `(1005, "")` sentinel, one byte is too short, otherwise the first
two bytes are a big-endian u16 code (checked against the reserved set)
and the remainder the UTF-8 reason. -/
def closeParse (data : List Nat) : Except FrameError (Nat × List Nat) :=
  if 2 ≤ data.length then
    let code := beNat (data.take 2)
    if closeCodeOk code then
      match utf8Decode (data.drop 2) with
      | some reason => .ok (code, reason)
      | none => .error .invalidUtf8
    else .error (.protocolError ("invalid status code"))
  else if data.length = 0 then .ok (1005, [])
  else .error (.protocolError ("close frame too short"))

/-- Modelled from the spec: `frames.Close.serialize` — rejects codes
outside the valid set and reasons whose UTF-8 encoding exceeds 123
bytes, otherwise emits the big-endian u16 code followed by the encoded
reason. -/
def closeSerialize (code : Nat) (reason : List Nat) : Except FrameError (List Nat) :=
  if closeCodeOk code then
    match utf8Encode reason with
    | some bs =>
      if bs.length ≤ 123 then .ok ([code / 256 % 256, code % 256] ++ bs)
      else .error (.protocolError ("reason too long"))
    | none => .error .invalidUtf8
  else .error (.protocolError ("invalid status code"))

/-- Model of `legacy.framing.parse_close`. -/
def parse_close (data : List Nat) : Except FrameError (Nat × List Nat) :=
  closeParse data

/-- Model of `legacy.framing.serialize_close`. -/
def serialize_close (code : Nat) (reason : List Nat) : Except FrameError (List Nat) :=
  closeSerialize code reason

/-! ## Message assembler (`websockets/sync/messages.py`)

`Assembler` couples one producer thread (`put`) and one consumer
thread (`get`) through a mutex and the `message_complete` /
`message_fetched` latch.  The model keeps every field of the Python
object and collapses the rendezvous to its sequential interleaving:
`put` runs up to its `message_fetched.wait()`, then `get` runs, then
the tail of `put` resumes.  The outcome of an event wait is passed
explicitly where a timeout makes it non-deterministic. -/

/-- A decoded chunk or message: `str` (code points) for text mode,
`bytes` for binary mode. -/
inductive Data where
  | str (cs : List Nat)
  | bytes (bs : List Nat)
  deriving DecidableEq, Repr

/-- The fields of `Assembler.__init__`.  `decoder` is `some pending`
when a text decoder is installed (with `pending` its buffered
incomplete byte sequence) and `none` for binary mode. -/
structure AState where
  message_complete : Bool
  message_fetched : Bool
  get_in_progress : Bool
  put_in_progress : Bool
  decoder : Option (List Nat)
  chunks : List Data
  chunks_queue : Option (List (Option Data))
  closed : Bool
  deriving DecidableEq, Repr

/-- A freshly constructed assembler. -/
def AState.initial : AState :=
  { message_complete := false, message_fetched := false,
    get_in_progress := false, put_in_progress := false,
    decoder := none, chunks := [], chunks_queue := none, closed := false }

/-- Exceptions the assembler methods can raise. -/
inductive AErr where
  | eofError
  | runtimeError
  | unicodeDecodeError
  | assertionError
  | typeError
  deriving DecidableEq, Repr

/-- The tail of `put` after the opcode dispatch: decode or pass the
payload through, append it to `chunks` (or send it to `chunks_queue`),
and on a final frame set `message_complete` and mark the producer as
blocked on `message_fetched`.  The returned flag says whether `put` is
now waiting for the rendezvous. -/
def afterData (s : AState) (d : Data) (fin : Bool) : Except AErr (AState × Bool) :=
  let s2 :=
    match s.chunks_queue with
    | none => { s with chunks := s.chunks ++ [d] }
    | some q => { s with chunks_queue := some (q ++ [some d]) }
  if !fin then .ok (s2, false)
  else if s2.message_complete then .error .assertionError
  else
    let s3 := { s2 with message_complete := true }
    let s4 :=
      match s3.chunks_queue with
      | none => s3
      | some q => { s3 with chunks_queue := some (q ++ [none]) }
    if s4.message_fetched then .error .assertionError
    else .ok ({ s4 with put_in_progress := true }, true)

/-- Model of `Assembler.put(frame)` up to (and without) its
`message_fetched.wait()`: check `closed` and `put_in_progress`,
dispatch on the opcode (TEXT installs a fresh UTF-8 decoder, BINARY
clears it, CONT keeps it, control frames are ignored), then process
the payload. -/
def putStart (s : AState) (f : Frame) : Except AErr (AState × Bool) :=
  if s.closed then .error .eofError
  else if s.put_in_progress then .error .runtimeError
  else
    match f.opcode with
    | .close | .ping | .pong => .ok (s, false)
    | op =>
      let s1 :=
        match op with
        | .text => { s with decoder := some [] }
        | .binary => { s with decoder := none }
        | _ => s
      match s1.decoder with
      | some pending =>
        match decoderDecode pending f.data f.fin with
        | .error _ => .error .unicodeDecodeError
        | .ok (out, pending2) =>
          afterData { s1 with decoder := some pending2 } (.str out) f.fin
      | none => afterData s1 (.bytes f.data) f.fin

/-- The tail of `put` after `message_fetched.wait()` returns: clear
the flag and the event, re-check `closed`, drop the decoder. -/
def putFinish (s : AState) : Except AErr AState :=
  let s1 := { s with put_in_progress := false }
  if !s1.message_fetched then .error .assertionError
  else
    let s2 := { s1 with message_fetched := false }
    if s2.closed then .error .eofError
    else .ok { s2 with decoder := none }

/-- The byte-string content of a chunk, when it is one. -/
def Data.asBytes : Data → Option (List Nat)
  | .bytes b => some b
  | .str _ => none

/-- The text content of a chunk, when it is one. -/
def Data.asStr : Data → Option (List Nat)
  | .str c => some c
  | .bytes _ => none

/-- Model of `joiner.join(self.chunks)`: the joiner is `b""` when no decoder is
installed and `""` otherwise; joining raises `TypeError` when a chunk
has the wrong type. -/
def joinChunks (decoder : Option (List Nat)) (chunks : List Data) : Option Data :=
  match decoder with
  | none => (chunks.mapM Data.asBytes).map (fun ls => Data.bytes ls.flatten)
  | some _ => (chunks.mapM Data.asStr).map (fun ls => Data.str ls.flatten)

/-- Model of `Assembler.get(timeout)`: `completed` is the outcome of
`message_complete.wait(timeout)` — `false` when the timeout elapsed
first.  On completion the chunks are joined per the decoder mode, the
latch is flipped and the message returned; on timeout the state is
left as it was and `none` is returned. -/
def getModel (s : AState) (completed : Bool) : Except AErr (AState × Option Data) :=
  if s.closed then .error .eofError
  else if s.get_in_progress then .error .runtimeError
  else
    let s1 := { s with get_in_progress := true }
    let s2 := { s1 with get_in_progress := false }
    if !completed then .ok (s2, none)
    else if s2.closed then .error .eofError
    else if !s2.message_complete then .error .assertionError
    else
      let s3 := { s2 with message_complete := false }
      match joinChunks s3.decoder s3.chunks with
      | none => .error .typeError
      | some msg =>
        if s3.message_fetched then .error .assertionError
        else
          let s4 := { s3 with message_fetched := true, chunks := [] }
          match s4.chunks_queue with
          | some _ => .error .assertionError
          | none => .ok (s4, some msg)

/-- One sequential producer/consumer round for a single frame: run
`put`; when it blocks on the latch, run `get` (whose wait succeeds
because `message_complete` was just set) and resume `put`. -/
def step (s : AState) (f : Frame) : Except AErr (AState × Option Data) :=
  match putStart s f with
  | .error e => .error e
  | .ok (s1, waiting) =>
    if waiting then
      match getModel s1 true with
      | .error e => .error e
      | .ok (s2, msg) =>
        match putFinish s2 with
        | .error e => .error e
        | .ok s3 => .ok (s3, msg)
    else .ok (s1, none)

/-- Feed a sequence of frames through the assembler, collecting the
messages the consumer receives, in order. -/
def processFrames (s : AState) : List Frame → Except AErr (AState × List Data)
  | [] => .ok (s, [])
  | f :: rest =>
    match step s f with
    | .error e => .error e
    | .ok (s1, m) =>
      match processFrames s1 rest with
      | .error e => .error e
      | .ok (s2, ms) => .ok (s2, m.toList ++ ms)

/-! ### Complete messages and their frames -/

/-- A complete message to be fragmented: its kind and the payloads of
its frames. -/
structure Msg where
  isText : Bool
  payloads : List (List Nat)
  deriving DecidableEq, Repr

/-- Build the frames of one message: the first frame carries the
opening opcode, every later frame is a continuation, and only the last
frame has `fin` set. -/
def mkFrames (op : Opcode) : List (List Nat) → List Frame
  | [] => []
  | [p] => [{ fin := true, opcode := op, data := p }]
  | p :: q :: rest => { fin := false, opcode := op, data := p } :: mkFrames .cont (q :: rest)

/-- The frames of a message: TEXT or BINARY first, CONT afterwards,
`fin` on the last. -/
def framesOfMsg (m : Msg) : List Frame :=
  mkFrames (if m.isText then .text else .binary) m.payloads

/-- The message the consumer should see: the concatenation of the
frame payloads, decoded to text for TEXT messages and kept as bytes
for BINARY messages. -/
def expectedData (m : Msg) : Data :=
  if m.isText then .str ((utf8Decode m.payloads.flatten).getD [])
  else .bytes m.payloads.flatten

/-- Mid-message assembler state in text mode: a decoder is installed
with buffered bytes `p` and the decoded chunks so far are `cs`. -/
def midText (p : List Nat) (cs : List (List Nat)) : AState :=
  { AState.initial with decoder := some p, chunks := cs.map Data.str }

/-- Mid-message assembler state in binary mode: the chunks so far are
`cs`. -/
def midBytes (cs : List (List Nat)) : AState :=
  { AState.initial with chunks := cs.map Data.bytes }

/-! ## Subprotocol selection (`websockets/legacy/server.py`) -/

/-- An application-provided `select_subprotocol` override. -/
def Selector (α : Type) : Type := List α → List α → Option α

/-- Model of `WebSocketServerProtocol.select_subprotocol`: an application
selector overrides; otherwise intersect the two lists and pick the
element minimizing `client.index(p) + server.index(p)` (the head of
the list sorted by that key). -/
def select_subprotocol {α : Type} [DecidableEq α] (sel : Option (Selector α))
    (client_subprotocols server_subprotocols : List α) : Option α :=
  match sel with
  | some f => f client_subprotocols server_subprotocols
  | none =>
    let subprotocols :=
      (client_subprotocols.filter (fun p => decide (p ∈ server_subprotocols))).dedup
    subprotocols.argmin
      (fun p => client_subprotocols.indexOf p + server_subprotocols.indexOf p)

/-! ## Server opening-handshake failure dispatch
(`WebSocketServerProtocol.handler`) -/

/-- The exceptions `handler` can see from `handshake()`.  Modelled from
the spec: the exception hierarchy of `websockets.exceptions` (not under
`src/`), where AbortHandshake, InvalidMessage, InvalidHeader (with its
refinements InvalidOrigin and InvalidUpgrade) and NegotiationError all
specialize InvalidHandshake. -/
inductive ServerExc where
  | abortHandshake (status : Nat)
  | invalidOrigin
  | invalidUpgrade
  | invalidHeader
  | invalidMessage
  | negotiationError
  | connectionError
  | cancelledError
  | otherError
  deriving DecidableEq, Repr

/-- Model of `isinstance(exc, InvalidHandshake)` under the modelled hierarchy. -/
def ServerExc.isInvalidHandshake : ServerExc → Bool
  | .abortHandshake _ | .invalidOrigin | .invalidUpgrade
  | .invalidHeader | .invalidMessage | .negotiationError => true
  | _ => false

/-- The `except` dispatch of `WebSocketServerProtocol.handler` around
`self.handshake(...)`: `CancelledError` and `ConnectionError` are
re-raised (no HTTP response is written, `none`); every other exception
is answered with `write_http_response(status, ...)` — AbortHandshake
with its own stored status, InvalidOrigin with 403, InvalidUpgrade
with 426, any other InvalidHandshake with 400, and anything else
with 500. -/
def handlerHttpResponse : ServerExc → Option Nat
  | .cancelledError => none
  | .connectionError => none
  | .abortHandshake status => some status
  | .invalidOrigin => some 403
  | .invalidUpgrade => some 426
  | e => if e.isInvalidHandshake then some 400 else some 500

/-! ## Sync client opening handshake (`websockets/sync/client.py`)

`ClientProtocol.handshake` is modelled as the trace of its effects, in
program order. -/

/-- The connection states of `websockets.connection.State`. -/
inductive ConnState where
  | CONNECTING | OPEN | CLOSING | CLOSED
  deriving DecidableEq, Repr

/-- The observable actions of `ClientProtocol.handshake`. -/
inductive HsAction where
  | sendRequest
  | sendData
  | raiseTimeout
  | tcpClose
  | raiseResponseExc
  deriving DecidableEq, Repr

/-- Model of `ClientProtocol.handshake(timeout)` as an action trace: send the
request; if `response_rcvd.wait(timeout)` fails, raise `TimeoutError`;
otherwise close the TCP socket when the connection state is not OPEN,
then raise the stored exception of the response when there is one. -/
def clientHandshake (responseReceived : Bool) (state : ConnState)
    (responseHasExc : Bool) : List HsAction :=
  [.sendRequest, .sendData] ++
    (if !responseReceived then [.raiseTimeout]
     else
       (if state ≠ ConnState.OPEN then [.tcpClose] else []) ++
         (if responseHasExc then [.raiseResponseExc] else []))

/-! ## Theorems: UTF-8 codec facts -/

theorem decodeChunk_append (p d1 d2 : List Nat) :
    decodeChunk p (d1 ++ d2) =
      match decodeChunk p d1 with
      | .error e => .error e
      | .ok (o1, p1) =>
        match decodeChunk p1 d2 with
        | .error e => .error e
        | .ok (o2, p2) => .ok (o1 ++ o2, p2) := by
  induction d1 generalizing p with
  | nil =>
    simp only [List.nil_append, decodeChunk]
    cases decodeChunk p d2 with
    | error e => rfl
    | ok pr => rfl
  | cons b bs ih =>
    simp only [List.cons_append, decodeChunk]
    cases feed1 p b with
    | error e => rfl
    | ok pr =>
      obtain ⟨emit, p2⟩ := pr
      simp only [List.append_eq]
      rw [ih p2]
      cases decodeChunk p2 bs with
      | error e => rfl
      | ok pr2 =>
        obtain ⟨out, pf⟩ := pr2
        simp only
        cases decodeChunk pf d2 with
        | error e => rfl
        | ok pr3 =>
          obtain ⟨o2, pf2⟩ := pr3
          simp [List.append_assoc]

theorem decodeChunk_cons (p : List Nat) (b : Nat) (bs : List Nat) (e : Option Nat)
    (p2 : List Nat) (h : feed1 p b = .ok (e, p2)) :
    decodeChunk p (b :: bs) =
      match decodeChunk p2 bs with
      | .error er => .error er
      | .ok (o, pf) => .ok (e.toList ++ o, pf) := by
  simp [decodeChunk, h]

theorem decodeChunk_enc1 (c : Nat) (h1 : c < 128) (rest : List Nat) :
    decodeChunk [] (utf8EncodeChar c ++ rest) = cpCons c (decodeChunk [] rest) := by
  have he : utf8EncodeChar c = [c] := by
    unfold utf8EncodeChar; rw [if_pos h1]
  have hp : parse1 ([] ++ [c]) = .cp c [] := by
    simp only [List.nil_append, parse1]
    rw [if_pos h1]
  have hf : feed1 [] c = .ok (some c, []) := by
    unfold feed1; rw [hp]
  rw [he, List.cons_append, List.nil_append, decodeChunk_cons _ _ _ _ _ hf]
  cases decodeChunk [] rest with
  | error e => simp [cpCons]
  | ok pr => obtain ⟨o, p⟩ := pr; simp [cpCons]

theorem decodeChunk_enc2 (c : Nat) (h1 : 128 ≤ c) (h2 : c < 2048) (rest : List Nat) :
    decodeChunk [] (utf8EncodeChar c ++ rest) = cpCons c (decodeChunk [] rest) := by
  have he : utf8EncodeChar c = [192 + c / 64, 128 + c % 64] := by
    unfold utf8EncodeChar; rw [if_neg (by omega), if_pos h2]
  have hp0 : parse1 ([] ++ [192 + c / 64]) = .incomplete := by
    simp only [List.nil_append, parse1]
    rw [if_neg (by omega), if_neg (by omega), if_pos (by omega)]
  have hf0 : feed1 [] (192 + c / 64) = .ok (none, [192 + c / 64]) := by
    unfold feed1; rw [hp0]; rfl
  have hcont : utf8Cont (128 + c % 64) = true := by
    simp only [utf8Cont, Bool.and_eq_true, decide_eq_true_eq]
    constructor <;> omega
  have hp1 : parse1 ([192 + c / 64] ++ [128 + c % 64]) = .cp c [] := by
    simp only [List.cons_append, List.nil_append, parse1]
    rw [if_neg (by omega), if_neg (by omega), if_pos (by omega), if_pos hcont]
    have hv : (192 + c / 64 - 192) * 64 + (128 + c % 64 - 128) = c := by omega
    rw [hv]
  have hf1 : feed1 [192 + c / 64] (128 + c % 64) = .ok (some c, []) := by
    unfold feed1; rw [hp1]
  rw [he, List.cons_append, List.cons_append, List.nil_append,
      decodeChunk_cons _ _ _ _ _ hf0, decodeChunk_cons _ _ _ _ _ hf1]
  cases decodeChunk [] rest with
  | error e => simp [cpCons]
  | ok pr => obtain ⟨o, p⟩ := pr; simp [cpCons]

theorem decodeChunk_enc3 (c : Nat) (h1 : 2048 ≤ c) (h2 : c < 65536)
    (hs : ¬(55296 ≤ c ∧ c ≤ 57343)) (rest : List Nat) :
    decodeChunk [] (utf8EncodeChar c ++ rest) = cpCons c (decodeChunk [] rest) := by
  have he : utf8EncodeChar c = [224 + c / 4096, 128 + c / 64 % 64, 128 + c % 64] := by
    unfold utf8EncodeChar; rw [if_neg (by omega), if_neg (by omega), if_pos h2]
  have hb1 : (decide (utf8Lo (224 + c / 4096) ≤ 128 + c / 64 % 64) &&
      decide (128 + c / 64 % 64 ≤ utf8Hi (224 + c / 4096))) = true := by
    simp only [utf8Lo, utf8Hi, Bool.and_eq_true, decide_eq_true_eq]
    constructor
    · split_ifs <;> omega
    · split_ifs <;> omega
  have hcont : utf8Cont (128 + c % 64) = true := by
    simp only [utf8Cont, Bool.and_eq_true, decide_eq_true_eq]
    constructor <;> omega
  have hp0 : parse1 ([] ++ [224 + c / 4096]) = .incomplete := by
    simp only [List.nil_append, parse1]
    rw [if_neg (by omega), if_neg (by omega), if_neg (by omega), if_pos (by omega)]
  have hf0 : feed1 [] (224 + c / 4096) = .ok (none, [224 + c / 4096]) := by
    unfold feed1; rw [hp0]; rfl
  have hp1 : parse1 ([224 + c / 4096] ++ [128 + c / 64 % 64]) = .incomplete := by
    simp only [List.cons_append, List.nil_append, parse1]
    rw [if_neg (by omega), if_neg (by omega), if_neg (by omega), if_pos (by omega), if_pos hb1]
  have hf1 : feed1 [224 + c / 4096] (128 + c / 64 % 64) =
      .ok (none, [224 + c / 4096, 128 + c / 64 % 64]) := by
    unfold feed1; rw [hp1]; rfl
  have hp2 : parse1 ([224 + c / 4096, 128 + c / 64 % 64] ++ [128 + c % 64]) = .cp c [] := by
    simp only [List.cons_append, List.nil_append, parse1]
    rw [if_neg (by omega), if_neg (by omega), if_neg (by omega), if_pos (by omega),
        if_pos hb1, if_pos hcont]
    have hv : (224 + c / 4096 - 224) * 4096 + (128 + c / 64 % 64 - 128) * 64 +
        (128 + c % 64 - 128) = c := by omega
    rw [hv]
  have hf2 : feed1 [224 + c / 4096, 128 + c / 64 % 64] (128 + c % 64) = .ok (some c, []) := by
    unfold feed1; rw [hp2]
  rw [he, List.cons_append, List.cons_append, List.cons_append, List.nil_append,
      decodeChunk_cons _ _ _ _ _ hf0, decodeChunk_cons _ _ _ _ _ hf1,
      decodeChunk_cons _ _ _ _ _ hf2]
  cases decodeChunk [] rest with
  | error e => simp [cpCons]
  | ok pr => obtain ⟨o, p⟩ := pr; simp [cpCons]

theorem decodeChunk_enc4 (c : Nat) (h1 : 65536 ≤ c) (h2 : c < 1114112) (rest : List Nat) :
    decodeChunk [] (utf8EncodeChar c ++ rest) = cpCons c (decodeChunk [] rest) := by
  have he : utf8EncodeChar c =
      [240 + c / 262144, 128 + c / 4096 % 64, 128 + c / 64 % 64, 128 + c % 64] := by
    unfold utf8EncodeChar; rw [if_neg (by omega), if_neg (by omega), if_neg (by omega)]
  have hb1 : (decide (utf8Lo (240 + c / 262144) ≤ 128 + c / 4096 % 64) &&
      decide (128 + c / 4096 % 64 ≤ utf8Hi (240 + c / 262144))) = true := by
    simp only [utf8Lo, utf8Hi, Bool.and_eq_true, decide_eq_true_eq]
    constructor
    · split_ifs <;> omega
    · split_ifs <;> omega
  have hcont2 : utf8Cont (128 + c / 64 % 64) = true := by
    simp only [utf8Cont, Bool.and_eq_true, decide_eq_true_eq]
    constructor <;> omega
  have hcont3 : utf8Cont (128 + c % 64) = true := by
    simp only [utf8Cont, Bool.and_eq_true, decide_eq_true_eq]
    constructor <;> omega
  have hp0 : parse1 ([] ++ [240 + c / 262144]) = .incomplete := by
    simp only [List.nil_append, parse1]
    rw [if_neg (by omega), if_neg (by omega), if_neg (by omega), if_neg (by omega),
        if_pos (by omega)]
  have hf0 : feed1 [] (240 + c / 262144) = .ok (none, [240 + c / 262144]) := by
    unfold feed1; rw [hp0]; rfl
  have hp1 : parse1 ([240 + c / 262144] ++ [128 + c / 4096 % 64]) = .incomplete := by
    simp only [List.cons_append, List.nil_append, parse1]
    rw [if_neg (by omega), if_neg (by omega), if_neg (by omega), if_neg (by omega),
        if_pos (by omega), if_pos hb1]
  have hf1 : feed1 [240 + c / 262144] (128 + c / 4096 % 64) =
      .ok (none, [240 + c / 262144, 128 + c / 4096 % 64]) := by
    unfold feed1; rw [hp1]; rfl
  have hp2 : parse1 ([240 + c / 262144, 128 + c / 4096 % 64] ++ [128 + c / 64 % 64]) =
      .incomplete := by
    simp only [List.cons_append, List.nil_append, parse1]
    rw [if_neg (by omega), if_neg (by omega), if_neg (by omega), if_neg (by omega),
        if_pos (by omega), if_pos hb1, if_pos hcont2]
  have hf2 : feed1 [240 + c / 262144, 128 + c / 4096 % 64] (128 + c / 64 % 64) =
      .ok (none, [240 + c / 262144, 128 + c / 4096 % 64, 128 + c / 64 % 64]) := by
    unfold feed1; rw [hp2]; rfl
  have hp3 : parse1 ([240 + c / 262144, 128 + c / 4096 % 64, 128 + c / 64 % 64] ++
      [128 + c % 64]) = .cp c [] := by
    simp only [List.cons_append, List.nil_append, parse1]
    rw [if_neg (by omega), if_neg (by omega), if_neg (by omega), if_neg (by omega),
        if_pos (by omega), if_pos hb1, if_pos hcont2, if_pos hcont3]
    have hv : (240 + c / 262144 - 240) * 262144 + (128 + c / 4096 % 64 - 128) * 4096 +
        (128 + c / 64 % 64 - 128) * 64 + (128 + c % 64 - 128) = c := by omega
    rw [hv]
  have hf3 : feed1 [240 + c / 262144, 128 + c / 4096 % 64, 128 + c / 64 % 64]
      (128 + c % 64) = .ok (some c, []) := by
    unfold feed1; rw [hp3]
  rw [he, List.cons_append, List.cons_append, List.cons_append, List.cons_append,
      List.nil_append, decodeChunk_cons _ _ _ _ _ hf0, decodeChunk_cons _ _ _ _ _ hf1,
      decodeChunk_cons _ _ _ _ _ hf2, decodeChunk_cons _ _ _ _ _ hf3]
  cases decodeChunk [] rest with
  | error e => simp [cpCons]
  | ok pr => obtain ⟨o, p⟩ := pr; simp [cpCons]

theorem decodeChunk_encodeChar (c : Nat) (h : scalar c = true) (rest : List Nat) :
    decodeChunk [] (utf8EncodeChar c ++ rest) = cpCons c (decodeChunk [] rest) := by
  simp only [scalar, Bool.and_eq_true, Bool.not_eq_true', Bool.and_eq_false_iff,
    decide_eq_true_eq, decide_eq_false_iff_not] at h
  obtain ⟨hlt, hsur⟩ := h
  by_cases hc1 : c < 128
  · exact decodeChunk_enc1 c hc1 rest
  · by_cases hc2 : c < 2048
    · exact decodeChunk_enc2 c (by omega) hc2 rest
    · by_cases hc3 : c < 65536
      · exact decodeChunk_enc3 c (by omega) hc3 (by omega) rest
      · exact decodeChunk_enc4 c (by omega) hlt rest

theorem decodeChunk_encodeAll (cs : List Nat) (h : cs.all scalar = true) (rest : List Nat) :
    decodeChunk [] (utf8EncodeAll cs ++ rest) =
      match decodeChunk [] rest with
      | .error e => .error e
      | .ok (o, p) => .ok (cs ++ o, p) := by
  induction cs with
  | nil =>
    simp only [utf8EncodeAll, List.map_nil, List.flatten_nil, List.nil_append]
    cases decodeChunk [] rest with
    | error e => rfl
    | ok pr => obtain ⟨o, p⟩ := pr; simp
  | cons c cs ih =>
    simp only [List.all_cons, Bool.and_eq_true] at h
    have hall : utf8EncodeAll (c :: cs) = utf8EncodeChar c ++ utf8EncodeAll cs := by
      simp [utf8EncodeAll]
    rw [hall, List.append_assoc, decodeChunk_encodeChar c h.1, ih h.2]
    cases decodeChunk [] rest with
    | error e => rfl
    | ok pr => obtain ⟨o, p⟩ := pr; simp [cpCons]

theorem utf8Decode_encodeAll (cs : List Nat) (h : cs.all scalar = true) :
    utf8Decode (utf8EncodeAll cs) = some cs := by
  have hd := decodeChunk_encodeAll cs h []
  rw [List.append_nil] at hd
  unfold utf8Decode decoderDecode
  rw [hd]
  simp [decodeChunk]

/-! ## Claim C3: 8-byte extended length -/

/-- Claim C3, as stated, is false: a 64-bit length with its most
significant bit set is not rejected as a protocol error.  On this
stream the 7-bit length field is 127 and the eight length bytes encode
`2^63`; with no `max_size` the parser simply tries to read `2^63`
payload bytes and fails at end of file — no `ProtocolError` is
raised. -/
theorem frameRead_msb_not_protocol_error :
    frameRead false none [] [130, 127, 128, 0, 0, 0, 0, 0, 0, 0] =
      Except.error FrameError.eof := by
  rfl

/-- Claim C3 (amended): when the 7-bit length field equals 127, the
next eight bytes are decoded as a big-endian unsigned 64-bit length;
no most-significant-bit check is performed, so such lengths are
subject only to the `max_size` check (`PayloadTooBig`, not
`ProtocolError`, on the same `2^63` stream once `max_size` is set). -/
theorem frameRead_length127_big_endian :
    (∀ (bs s : List Nat), bs.length = 8 →
      parseLength 127 (bs ++ s) = Except.ok (beNat bs, s)) ∧
    frameRead false (some 1024) [] [130, 127, 128, 0, 0, 0, 0, 0, 0, 0] =
      Except.error FrameError.payloadTooBig := by
  constructor
  · intro bs s h
    have hle : 8 ≤ (bs ++ s).length := by simp [h]
    simp only [parseLength, readExact, if_pos hle, if_neg (by omega : ¬(127 = 126)),
      if_pos rfl]
    rw [List.take_left' h, List.drop_left' h]
    simp
  · rfl

/-- Witness for the amended C3 theorem at a concrete input. -/
theorem frameRead_length127_big_endian_witness :
    parseLength 127 ([128, 0, 0, 0, 0, 0, 0, 0] ++ [1, 2]) =
      Except.ok (beNat [128, 0, 0, 0, 0, 0, 0, 0], [1, 2]) :=
  frameRead_length127_big_endian.1 [128, 0, 0, 0, 0, 0, 0, 0] [1, 2] rfl

/-! ## Claim C7: extensions decode in reverse order, check afterwards -/

theorem specApply_append (exts : List Extension) (e : Extension) (m : Option Nat)
    (fr : Frame) : specApply (exts ++ [e]) m fr = specApply exts m (e fr m) := by
  induction exts with
  | nil => rfl
  | cons x xs ih => simp [specApply, ih]

theorem foldl_reverse_specApply (exts : List Extension) (m : Option Nat) (fr : Frame) :
    exts.reverse.foldl (fun g e => e g m) fr = specApply exts m fr := by
  induction exts generalizing fr with
  | nil => rfl
  | cons x xs ih =>
    simp only [List.reverse_cons, List.foldl_append, List.foldl_cons, List.foldl_nil]
    rw [ih]
    rfl

/-- Claim C7: `Frame.read` applies the `decode` of each extension in the
reverse of the negotiation list order — appending an extension to the
end of the list makes its decode run first — and validates the frame
invariants only after all decodes have been applied. -/
theorem frameRead_decodes_reversed :
    (∀ (exts : List Extension) (e : Extension) (m : Option Nat) (fr : Frame),
      specApply (exts ++ [e]) m fr = specApply exts m (e fr m)) ∧
    (∀ (mask : Bool) (m : Option Nat) (exts : List Extension) (s : List Nat),
      frameRead mask m exts s =
        match readRaw mask m s with
        | .error e => .error e
        | .ok (raw, rest) =>
          match checkFrame (specApply exts m raw) with
          | .error e => .error e
          | .ok _ => .ok (specApply exts m raw, rest)) := by
  refine ⟨specApply_append, ?_⟩
  intro mask m exts s
  unfold frameRead
  cases readRaw mask m s with
  | error e => rfl
  | ok pr =>
    obtain ⟨raw, rest⟩ := pr
    simp only
    rw [foldl_reverse_specApply]

/-! ## Claim C4: a CONT frame with no message in progress -/

/-- Claim C4, as stated, is false: `Assembler.put` raises no protocol
error for a continuation frame when no message is in progress — it
returns normally, appending the payload as a (binary) chunk. -/
theorem put_lone_cont_counterexample :
    putStart AState.initial { fin := false, opcode := Opcode.cont, data := [104] } =
      Except.ok ({ AState.initial with chunks := [Data.bytes [104]] }, false) := by
  rfl

/-- Claim C4 (amended): `Assembler.put` performs no fragmentation
validation (its contract declares the behavior undefined on protocol
violations, and the 1002 protocol error is raised by the protocol
layer before frames reach the assembler): a CONT frame arriving with
no message in progress is accepted without error and its payload
appended as a chunk under the current (absent) decoder. -/
theorem put_lone_cont_accepted (data : List Nat) :
    putStart AState.initial { fin := false, opcode := Opcode.cont, data := data } =
      Except.ok ({ AState.initial with chunks := [Data.bytes data] }, false) := by
  rfl

/-! ## Claim C8: `get` with an elapsed timeout -/

/-- Claim C8: when the timeout elapses before a message is complete
(`message_complete.wait` returned `false`), `Assembler.get` returns
`None` and leaves the assembler state — chunks, events, decoder,
queue — exactly as it was, so a later `get` can still fetch the
message. -/
theorem get_timeout_returns_none (s : AState)
    (hclosed : s.closed = false) (hget : s.get_in_progress = false) :
    getModel s false = Except.ok (s, none) := by
  obtain ⟨mc, mf, gip, pip, dec, ch, cq, cl⟩ := s
  simp only at hclosed hget
  subst hclosed
  subst hget
  rfl

/-- Witness for C8 at a concrete state. -/
theorem get_timeout_returns_none_witness :
    getModel AState.initial false = Except.ok (AState.initial, none) :=
  get_timeout_returns_none AState.initial rfl rfl

/-! ## Claim C9: control frames do not disturb the assembler -/

/-- Claim C9: `Assembler.put` ignores frames with a control opcode
(CLOSE, PING, PONG): on a non-closed assembler (with no concurrent
`put` running, the single-producer invariant) it returns normally with
every field unchanged. -/
theorem put_control_frame_noop (s : AState) (f : Frame)
    (hclosed : s.closed = false) (hput : s.put_in_progress = false)
    (hctrl : f.opcode.isControl = true) :
    putStart s f = Except.ok (s, false) := by
  cases hop : f.opcode <;> rw [hop] at hctrl <;>
    simp only [Opcode.isControl, Bool.false_eq_true] at hctrl <;>
    simp [putStart, hclosed, hput, hop]

/-- Witness for C9 at a concrete state and frame. -/
theorem put_control_frame_noop_witness :
    putStart AState.initial { fin := true, opcode := Opcode.ping, data := [171] } =
      Except.ok (AState.initial, false) :=
  put_control_frame_noop AState.initial
    { fin := true, opcode := Opcode.ping, data := [171] } rfl rfl rfl

/-! ## Claim C10: failed client handshake closes the socket -/

/-- Claim C10: when a handshake response was received but the
connection state is not OPEN, `ClientProtocol.handshake` closes the
TCP socket, and does so before raising the stored response
exception. -/
theorem client_handshake_closes_socket (st : ConnState) (hasExc : Bool)
    (h : st ≠ ConnState.OPEN) :
    clientHandshake true st hasExc =
      [HsAction.sendRequest, HsAction.sendData, HsAction.tcpClose] ++
        (if hasExc then [HsAction.raiseResponseExc] else []) := by
  simp [clientHandshake, h]

/-- Witness for C10 at a concrete failed handshake. -/
theorem client_handshake_closes_socket_witness :
    clientHandshake true ConnState.CONNECTING true =
      [HsAction.sendRequest, HsAction.sendData, HsAction.tcpClose] ++
        (if true then [HsAction.raiseResponseExc] else []) :=
  client_handshake_closes_socket ConnState.CONNECTING true (by decide)

/-! ## Claim C6: handshake failures map to HTTP responses -/

/-- Claim C6, as stated, is false: `AbortHandshake` is an
`InvalidHandshake` other than `InvalidOrigin`/`InvalidUpgrade`, yet the
handler answers it with its stored status (here 503), not 400; and a
`ConnectionError` is re-raised with no HTTP error response at all. -/
theorem handler_response_counterexample :
    handlerHttpResponse (ServerExc.abortHandshake 503) = some 503 ∧
    ServerExc.isInvalidHandshake (ServerExc.abortHandshake 503) = true ∧
    handlerHttpResponse (ServerExc.abortHandshake 503) ≠ some 400 ∧
    handlerHttpResponse ServerExc.connectionError = none := by
  refine ⟨rfl, rfl, by decide, rfl⟩

/-- Claim C6 (amended): for every exception raised during the server
opening handshake except `CancelledError` and `ConnectionError` (which
are re-raised without writing a response), the handler writes an HTTP
error response and never a WebSocket close frame: `AbortHandshake`
with its stored status, `InvalidOrigin` 403, `InvalidUpgrade` 426, any
other `InvalidHandshake` 400, anything else 500. -/
theorem handler_response_spec :
    handlerHttpResponse ServerExc.invalidOrigin = some 403 ∧
    handlerHttpResponse ServerExc.invalidUpgrade = some 426 ∧
    (∀ status : Nat, handlerHttpResponse (ServerExc.abortHandshake status) = some status) ∧
    handlerHttpResponse ServerExc.invalidHeader = some 400 ∧
    handlerHttpResponse ServerExc.invalidMessage = some 400 ∧
    handlerHttpResponse ServerExc.negotiationError = some 400 ∧
    handlerHttpResponse ServerExc.otherError = some 500 ∧
    handlerHttpResponse ServerExc.connectionError = none ∧
    handlerHttpResponse ServerExc.cancelledError = none :=
  ⟨rfl, rfl, fun _ => rfl, rfl, rfl, rfl, rfl, rfl, rfl⟩

/-! ## Claim C5: default subprotocol selection -/

/-- Claim C5: with no application selector, `select_subprotocol`
returns `None` exactly when the client and server lists do not
intersect, and otherwise an element of the intersection minimizing the
sum of its indices in the two lists; an application-provided selector
overrides the default entirely. -/
theorem select_subprotocol_spec {α : Type} [DecidableEq α] :
    (∀ (f : Selector α) (c s : List α), select_subprotocol (some f) c s = f c s) ∧
    (∀ (c s : List α),
      select_subprotocol (none : Option (Selector α)) c s = none ↔
        ∀ p, ¬(p ∈ c ∧ p ∈ s)) ∧
    (∀ (c s : List α) (m : α),
      select_subprotocol (none : Option (Selector α)) c s = some m →
        m ∈ c ∧ m ∈ s ∧
          ∀ q, q ∈ c → q ∈ s →
            c.indexOf m + s.indexOf m ≤ c.indexOf q + s.indexOf q) := by
  refine ⟨fun f c s => rfl, ?_, ?_⟩
  · intro c s
    simp only [select_subprotocol, List.argmin_eq_none, List.dedup_eq_nil,
      List.filter_eq_nil_iff, decide_eq_true_eq]
    constructor
    · intro h p hp
      exact h p hp.1 hp.2
    · intro h p hpc hps
      exact h p ⟨hpc, hps⟩
  · intro c s m h
    simp only [select_subprotocol] at h
    have hmem : m ∈ (c.filter (fun p => decide (p ∈ s))).dedup :=
      List.argmin_mem (Option.mem_def.mpr h)
    rw [List.mem_dedup, List.mem_filter, decide_eq_true_eq] at hmem
    refine ⟨hmem.1, hmem.2, ?_⟩
    intro q hqc hqs
    have hqmem : q ∈ (c.filter (fun p => decide (p ∈ s))).dedup := by
      rw [List.mem_dedup, List.mem_filter, decide_eq_true_eq]
      exact ⟨hqc, hqs⟩
    exact List.le_of_mem_argmin hqmem (Option.mem_def.mpr h)

/-- Witness for C5 at concrete lists: the default selection on
`[1, 2]` and `[2, 3]` picks `2`, which lies in both lists. -/
theorem select_subprotocol_spec_witness : 2 ∈ [1, 2] ∧ 2 ∈ [2, 3] := by
  have h := (@select_subprotocol_spec Nat _).2.2 [1, 2] [2, 3] 2 (by decide)
  exact ⟨h.1, h.2.1⟩

/-! ## Claim C2: close payload round trip -/

/-- Claim C2: for every close code in `1000..=4999` outside the
reserved set {1005, 1006, 1015} and every reason whose UTF-8 encoding
is at most 123 bytes, `parse_close (serialize_close code reason)`
returns `(code, reason)`. -/
theorem parse_close_serialize_close (code : Nat) (reason : List Nat)
    (h1 : 1000 ≤ code) (h2 : code ≤ 4999)
    (h3 : code ≠ 1005) (h4 : code ≠ 1006) (h5 : code ≠ 1015)
    (hscalar : reason.all scalar = true)
    (hlen : (utf8EncodeAll reason).length ≤ 123) :
    (serialize_close code reason).bind parse_close = Except.ok (code, reason) := by
  have hcode : closeCodeOk code = true := by
    simp only [closeCodeOk, Bool.and_eq_true, decide_eq_true_eq, bne_iff_ne, ne_eq]
    exact ⟨⟨⟨⟨h1, h2⟩, h3⟩, h4⟩, h5⟩
  have henc : utf8Encode reason = some (utf8EncodeAll reason) := by
    simp [utf8Encode, hscalar]
  have hser : serialize_close code reason =
      Except.ok ([code / 256 % 256, code % 256] ++ utf8EncodeAll reason) := by
    simp only [serialize_close, closeSerialize, hcode, if_true, henc]
    rw [if_pos hlen]
  have hblen : (2 : Nat) ≤ ([code / 256 % 256, code % 256] ++ utf8EncodeAll reason).length := by
    simp
  have hbe : beNat [code / 256 % 256, code % 256] = code := by
    simp only [beNat, List.foldl_cons, List.foldl_nil]
    omega
  have htake : ([code / 256 % 256, code % 256] ++ utf8EncodeAll reason).take 2 =
      [code / 256 % 256, code % 256] := rfl
  have hdrop : ([code / 256 % 256, code % 256] ++ utf8EncodeAll reason).drop 2 =
      utf8EncodeAll reason := rfl
  rw [hser]
  simp only [Except.bind, parse_close, closeParse]
  rw [if_pos hblen, htake, hdrop, hbe, hcode, utf8Decode_encodeAll reason hscalar]
  simp

/-- Witness for C2 at a concrete code and reason. -/
theorem parse_close_serialize_close_witness :
    (serialize_close 1000 [104, 233]).bind parse_close = Except.ok (1000, [104, 233]) :=
  parse_close_serialize_close 1000 [104, 233] (by decide) (by decide) (by decide)
    (by decide) (by decide) (by decide) (by decide)

/-! ## Claim C1: assembler round trip — helper lemmas -/

theorem mapM_asStr_map (cs : List (List Nat)) :
    (cs.map Data.str).mapM Data.asStr = some cs := by
  induction cs with
  | nil => rfl
  | cons c cs ih =>
    simp only [List.map_cons, List.mapM_cons, Data.asStr, ih]
    rfl

theorem mapM_asBytes_map (cs : List (List Nat)) :
    (cs.map Data.bytes).mapM Data.asBytes = some cs := by
  induction cs with
  | nil => rfl
  | cons c cs ih =>
    simp only [List.map_cons, List.mapM_cons, Data.asBytes, ih]
    rfl

theorem joinChunks_str (q : List Nat) (cs : List (List Nat)) :
    joinChunks (some q) (cs.map Data.str) = some (Data.str cs.flatten) := by
  simp only [joinChunks]
  rw [mapM_asStr_map]
  rfl

theorem joinChunks_bytes (cs : List (List Nat)) :
    joinChunks none (cs.map Data.bytes) = some (Data.bytes cs.flatten) := by
  simp only [joinChunks]
  rw [mapM_asBytes_map]
  rfl

theorem joinChunks_str_append (q p : List Nat) (cs : List (List Nat)) :
    joinChunks (some q) (cs.map Data.str ++ [Data.str p]) =
      some (Data.str (cs.flatten ++ p)) := by
  rw [show cs.map Data.str ++ [Data.str p] = (cs ++ [p]).map Data.str by simp,
    joinChunks_str]
  simp

theorem joinChunks_bytes_append (p : List Nat) (cs : List (List Nat)) :
    joinChunks none (cs.map Data.bytes ++ [Data.bytes p]) =
      some (Data.bytes (cs.flatten ++ p)) := by
  rw [show cs.map Data.bytes ++ [Data.bytes p] = (cs ++ [p]).map Data.bytes by simp,
    joinChunks_bytes]
  simp

theorem step_cont_bytes_nofin (cs : List (List Nat)) (p0 : List Nat) :
    step (midBytes cs) { fin := false, opcode := Opcode.cont, data := p0 } =
      Except.ok (midBytes (cs ++ [p0]), none) := by
  simp [step, putStart, afterData, midBytes, AState.initial]

theorem step_cont_bytes_fin (cs : List (List Nat)) (p0 : List Nat) :
    step (midBytes cs) { fin := true, opcode := Opcode.cont, data := p0 } =
      Except.ok (AState.initial, some (Data.bytes (cs.flatten ++ p0))) := by
  simp [step, putStart, afterData, getModel, putFinish, midBytes, AState.initial,
    joinChunks_bytes_append]

theorem step_cont_text_nofin (p : List Nat) (cs : List (List Nat)) (p0 o1 pm : List Nat)
    (h : decodeChunk p p0 = Except.ok (o1, pm)) :
    step (midText p cs) { fin := false, opcode := Opcode.cont, data := p0 } =
      Except.ok (midText pm (cs ++ [o1]), none) := by
  simp [step, putStart, afterData, decoderDecode, midText, AState.initial, h]

theorem step_cont_text_fin (p : List Nat) (cs : List (List Nat)) (p0 r : List Nat)
    (h : decodeChunk p p0 = Except.ok (r, [])) :
    step (midText p cs) { fin := true, opcode := Opcode.cont, data := p0 } =
      Except.ok (AState.initial, some (Data.str (cs.flatten ++ r))) := by
  simp [step, putStart, afterData, getModel, putFinish, decoderDecode, midText,
    AState.initial, h, joinChunks_str_append]

theorem step_text_eq_cont (cs : List (List Nat)) (p0 : List Nat) (fin : Bool) :
    step (midText [] cs) { fin := fin, opcode := Opcode.text, data := p0 } =
      step (midText [] cs) { fin := fin, opcode := Opcode.cont, data := p0 } := by
  rfl

theorem step_binary_eq_cont (cs : List (List Nat)) (p0 : List Nat) (fin : Bool) :
    step (midBytes cs) { fin := fin, opcode := Opcode.binary, data := p0 } =
      step (midBytes cs) { fin := fin, opcode := Opcode.cont, data := p0 } := by
  rfl

theorem utf8Decode_some (bs r : List Nat) (h : utf8Decode bs = some r) :
    decodeChunk [] bs = Except.ok (r, []) := by
  unfold utf8Decode decoderDecode at h
  cases h1 : decodeChunk [] bs with
  | error e => rw [h1] at h; simp at h
  | ok pr =>
    obtain ⟨o, p⟩ := pr
    rw [h1] at h
    cases p with
    | nil => simp at h; rw [h]
    | cons x xs => simp [List.isEmpty] at h

theorem run_binary (op : Opcode) (hop : op = Opcode.cont ∨ op = Opcode.binary)
    (p0 : List Nat) (ps cs : List (List Nat)) (rest : List Frame) :
    processFrames (midBytes cs) (mkFrames op (p0 :: ps) ++ rest) =
      match processFrames AState.initial rest with
      | .error e => .error e
      | .ok (sf, ms) => .ok (sf, Data.bytes (cs.flatten ++ (p0 :: ps).flatten) :: ms) := by
  revert hop
  induction ps generalizing op p0 cs with
  | nil =>
    intro hop
    have hstep : step (midBytes cs) { fin := true, opcode := op, data := p0 } =
        Except.ok (AState.initial, some (Data.bytes (cs.flatten ++ p0))) := by
      rcases hop with h | h <;> subst h
      · exact step_cont_bytes_fin cs p0
      · rw [step_binary_eq_cont]; exact step_cont_bytes_fin cs p0
    simp only [mkFrames, List.cons_append, List.nil_append, List.append_eq,
      processFrames, hstep]
    cases processFrames AState.initial rest with
    | error e => rfl
    | ok pr => obtain ⟨sf, ms⟩ := pr; simp
  | cons p1 ps2 ih =>
    intro hop
    have hstep : step (midBytes cs) { fin := false, opcode := op, data := p0 } =
        Except.ok (midBytes (cs ++ [p0]), none) := by
      rcases hop with h | h <;> subst h
      · exact step_cont_bytes_nofin cs p0
      · rw [step_binary_eq_cont]; exact step_cont_bytes_nofin cs p0
    simp only [mkFrames, List.cons_append, List.nil_append, List.append_eq,
      processFrames, hstep]
    rw [ih Opcode.cont p1 (cs ++ [p0]) (Or.inl rfl)]
    cases processFrames AState.initial rest with
    | error e => rfl
    | ok pr =>
      obtain ⟨sf, ms⟩ := pr
      simp [List.append_assoc]

theorem run_text (op : Opcode) (p : List Nat)
    (hop : op = Opcode.cont ∨ (op = Opcode.text ∧ p = []))
    (p0 : List Nat) (ps cs : List (List Nat)) (r : List Nat) (rest : List Frame)
    (hdec : decodeChunk p ((p0 :: ps).flatten) = Except.ok (r, [])) :
    processFrames (midText p cs) (mkFrames op (p0 :: ps) ++ rest) =
      match processFrames AState.initial rest with
      | .error e => .error e
      | .ok (sf, ms) => .ok (sf, Data.str (cs.flatten ++ r) :: ms) := by
  revert hop hdec
  induction ps generalizing op p p0 cs r with
  | nil =>
    intro hop hdec
    rw [List.flatten_cons, List.flatten_nil, List.append_nil] at hdec
    have hstep : step (midText p cs) { fin := true, opcode := op, data := p0 } =
        Except.ok (AState.initial, some (Data.str (cs.flatten ++ r))) := by
      rcases hop with h | ⟨h, hp⟩
      · subst h; exact step_cont_text_fin p cs p0 r hdec
      · subst h; subst hp
        rw [step_text_eq_cont]
        exact step_cont_text_fin [] cs p0 r hdec
    simp only [mkFrames, List.cons_append, List.nil_append, List.append_eq,
      processFrames, hstep]
    cases processFrames AState.initial rest with
    | error e => rfl
    | ok pr => obtain ⟨sf, ms⟩ := pr; simp
  | cons p1 ps2 ih =>
    intro hop hdec
    rw [List.flatten_cons, decodeChunk_append] at hdec
    cases h1 : decodeChunk p p0 with
    | error e => rw [h1] at hdec; simp at hdec
    | ok pr =>
      obtain ⟨o1, pm⟩ := pr
      rw [h1] at hdec
      simp only at hdec
      cases h2 : decodeChunk pm ((p1 :: ps2).flatten) with
      | error e => rw [h2] at hdec; simp at hdec
      | ok pr2 =>
        obtain ⟨o2, pf⟩ := pr2
        rw [h2] at hdec
        simp only [Except.ok.injEq, Prod.mk.injEq] at hdec
        obtain ⟨hr, hpf⟩ := hdec
        subst hpf
        have hstep : step (midText p cs) { fin := false, opcode := op, data := p0 } =
            Except.ok (midText pm (cs ++ [o1]), none) := by
          rcases hop with h | ⟨h, hp⟩
          · subst h; exact step_cont_text_nofin p cs p0 o1 pm h1
          · subst h; subst hp
            rw [step_text_eq_cont]
            exact step_cont_text_nofin [] cs p0 o1 pm h1
        simp only [mkFrames, List.cons_append, List.nil_append, List.append_eq,
          processFrames, hstep]
        rw [ih Opcode.cont pm p1 (cs ++ [o1]) o2 (Or.inl rfl) h2]
        cases processFrames AState.initial rest with
        | error e => rfl
        | ok pr3 =>
          obtain ⟨sf, ms⟩ := pr3
          simp [List.append_assoc, ← hr]

theorem run_msg (m : Msg) (rest : List Frame)
    (hne : m.payloads ≠ [])
    (htext : m.isText = true → (utf8Decode m.payloads.flatten).isSome = true) :
    processFrames AState.initial (framesOfMsg m ++ rest) =
      match processFrames AState.initial rest with
      | .error e => .error e
      | .ok (sf, ms) => .ok (sf, expectedData m :: ms) := by
  obtain ⟨isText, payloads⟩ := m
  cases payloads with
  | nil => exact absurd rfl hne
  | cons p0 ps =>
    cases isText with
    | false =>
      have h := run_binary Opcode.binary (Or.inr rfl) p0 ps [] rest
      rw [show midBytes [] = AState.initial from rfl] at h
      rw [show framesOfMsg { isText := false, payloads := p0 :: ps } =
            mkFrames Opcode.binary (p0 :: ps) from by simp [framesOfMsg]]
      rw [h]
      rw [show expectedData { isText := false, payloads := p0 :: ps } =
            Data.bytes ((p0 :: ps).flatten) from by simp [expectedData]]
      cases processFrames AState.initial rest with
      | error e => rfl
      | ok pr => obtain ⟨sf, ms⟩ := pr; simp
    | true =>
      have hsome := htext rfl
      obtain ⟨r, hr⟩ := Option.isSome_iff_exists.mp hsome
      have hdec := utf8Decode_some _ r hr
      have h := run_text Opcode.text [] (Or.inr ⟨rfl, rfl⟩) p0 ps [] r rest hdec
      have hbridge : processFrames AState.initial
            (mkFrames Opcode.text (p0 :: ps) ++ rest) =
          processFrames (midText [] []) (mkFrames Opcode.text (p0 :: ps) ++ rest) := by
        cases ps <;> rfl
      rw [show framesOfMsg { isText := true, payloads := p0 :: ps } =
            mkFrames Opcode.text (p0 :: ps) from by simp [framesOfMsg]]
      have hr2 : utf8Decode (p0 ++ ps.flatten) = some r := by simpa using hr
      rw [hbridge, h]
      rw [show expectedData { isText := true, payloads := p0 :: ps } =
            Data.str r from by simp [expectedData, hr2]]
      cases processFrames AState.initial rest with
      | error e => rfl
      | ok pr => obtain ⟨sf, ms⟩ := pr; simp

/-- Claim C1: feeding any sequence of complete messages — each a
TEXT or BINARY first frame, CONT continuations, `fin` on the last
frame — through `Assembler.put` one frame at a time, successive
`Assembler.get` calls return exactly those messages in order, each the
concatenation of the payloads of its frames, decoded to text for TEXT
(provided the payload is valid UTF-8, else `put` raises) and kept as
bytes for BINARY; the assembler ends back in its initial state. -/
theorem assembler_put_get_in_order (msgs : List Msg)
    (hne : ∀ m ∈ msgs, m.payloads ≠ [])
    (htext : ∀ m ∈ msgs, m.isText = true → (utf8Decode m.payloads.flatten).isSome = true) :
    processFrames AState.initial ((msgs.map framesOfMsg).flatten) =
      Except.ok (AState.initial, msgs.map expectedData) := by
  induction msgs with
  | nil => rfl
  | cons m ms ih =>
    simp only [List.map_cons, List.flatten_cons]
    rw [run_msg m _ (hne m (by simp)) (htext m (by simp))]
    rw [ih (fun x hx => hne x (by simp [hx])) (fun x hx => htext x (by simp [hx]))]

/-- Witness for C1: a fragmented TEXT message (whose UTF-8 sequence is
split across the fragment boundary) followed by a fragmented BINARY
message. -/
theorem assembler_put_get_in_order_witness :
    processFrames AState.initial
        ((([⟨true, [[104, 195], [169]]⟩, ⟨false, [[1, 2], [3]]⟩] : List Msg).map
          framesOfMsg).flatten) =
      Except.ok (AState.initial,
        ([⟨true, [[104, 195], [169]]⟩, ⟨false, [[1, 2], [3]]⟩] : List Msg).map
          expectedData) :=
  assembler_put_get_in_order _ (by decide) (by decide)

end WS
